import Mathlib

/-!
Verification development for the fish-lang interpreter core
(`src/tokenizer.rs` token types, `src/number.rs`, `src/parser.rs`,
`src/interpreter.rs`).

The Rust source is shallowly embedded: every data type and function below
mirrors the corresponding Rust item, with the following systematic choices.

* Recursion (the statement/expression parsers and the interpreter, which
  contains an unbounded `while` loop) is made structural by an explicit
  `fuel : Nat` argument.  Every fuel-indexed function returns a dedicated
  `timeout` outcome when the fuel runs out; `timeout` is an artifact of the
  embedding, not a behaviour of the program.  A result of `timeout` for
  every fuel corresponds to divergence of the Rust program.
* Rust panics (`unwrap`, `expect`, the `unreachable!` arms) are embedded as
  the `fault` outcome, distinct from the typed `InterpreterError` results.
* `i64` is embedded as `Int` (no claim exercises wrap-around), `f64` as
  Lean's `Float` (which is IEEE-754 binary64, like Rust's `f64`); no claim
  or theorem exercises a floating-point branch.
* `HashMap<String, Data>` is embedded as an association list with unique
  keys, `insert` replacing the binding in place.
* `stdout` and `stdin` are embedded as explicit `output`/`input` line lists
  carried in the `VM` state.
-/

namespace FishLang

/-- Alias for Lean's builtin binary64 float type, usable inside namespaces
where a `Float` constructor shadows the builtin name. -/
abbrev F64 := Float

/-- Alias for Lean's builtin string type, usable inside namespaces where a
`String` constructor shadows the builtin name. -/
abbrev Str := String

/-- Operator kinds, from `tokenizer.rs` (`enum Operator`). -/
inductive Operator where
  | Add | Subtract | Multiply | Divide | Modulo | Exponent
  | Equal | NotEqual | LessThan | GreaterThan | LessThanOrEqual | GreaterThanOrEqual
  | And | Or | Not | Brackets
  | Assign | AddAssign | SubtractAssign | MultiplyAssign | DivideAssign | ModuloAssign
deriving DecidableEq, Repr

/-- Keyword kinds, from `tokenizer.rs` (`enum Keyword`). -/
inductive Keyword where
  | If | Else | While | Print | Input | Break
deriving DecidableEq, Repr

/-- Numbers, from `number.rs` (`enum Number`): 64-bit signed integer or
64-bit float.  `i64` is embedded as `Int`; `f64` as Lean `Float`. -/
inductive Number where
  | Integer (i : Int)
  | Float (f : Float)
deriving Repr

/-- Tokens, from `tokenizer.rs` (`enum Token`). -/
inductive Token where
  | EndStatement
  | Identifier (name : String)
  | Number (n : Number)
  | String (s : String)
  | Operator (op : Operator)
  | Keyword (k : Keyword)
  | Comment (s : String)
  | ScopeOpen
  | ScopeClose
  | BracketOpen
  | BracketClose
  | Boolean (b : Bool)
deriving Repr

/-- Expression values, from `parser.rs` (`enum Value` together with
`struct Expression`): the `Expression` constructor inlines the Rust
`Expression { operator, left, right }` struct (the `Box` indirections are
immaterial in Lean).  `right` is `none` exactly for the two unary forms
(`Not` and `Brackets`), as enforced by `Expression::new` /
`Expression::new_not_or_bracket`. -/
inductive Value where
  | Number (n : Number)
  | String (s : String)
  | Boolean (b : Bool)
  | Identifier (name : String)
  | Expression (operator : Operator) (left : Value) (right : Option Value)
deriving Repr

/-- Statements, from `parser.rs` (`enum Instruction`). -/
inductive Instruction where
  | If (condition : Value) (instructions : List Instruction)
  | Else (instructions : List Instruction)
  | While (condition : Value) (instructions : List Instruction)
  | Scope (instructions : List Instruction)
  | Value (value : Value)
  | Break
  | Print (message : Value)
  | Input (varName : String)
deriving Repr

/-- Runtime values, from `interpreter.rs` (`enum Data`). -/
inductive Data where
  | Number (n : Number)
  | String (s : String)
  | Boolean (b : Bool)
deriving Repr

/-- Runtime errors, from `interpreter.rs` (`enum InterpreterError`). -/
inductive InterpreterError where
  | VariableNotDefined (name : String)
  | TypeMismatch (msg : String)
deriving DecidableEq, Repr

/-- Parse errors, from `parser.rs` (`enum ParserError`). -/
inductive ParserError where
  | ExpectedToken (t : Token)
  | UnexpectedToken (t : Token)
  | UnknownOperator (s : String)
  | InvalidOperator (op : Operator)
  | UnexpectedEnd
deriving Repr

/-! ## Number arithmetic (`number.rs`)

Every binary operation promotes a mismatched `Integer` operand to `Float`
(`as f64`), exactly as the Rust `impl` blocks do. -/

/-- Truncating `i64` division (`a / b` in Rust); division by zero, a Rust
panic, is left at Lean's `Int.tdiv` default and is exercised by no claim. -/
def intDiv (a b : Int) : Int := Int.tdiv a b

/-- Truncating `i64` remainder (`a % b` in Rust). -/
def intRem (a b : Int) : Int := Int.tmod a b

/-- Remainder on floats (`a % b` on `f64`); approximated as
`a - b * trunc (a / b)`.  No claim or theorem exercises this branch. -/
def floatRem (a b : Float) : Float :=
  let q := a / b
  a - b * (if q >= 0 then q.floor else q.ceil)

/-- Addition, from `impl Add for &Number`. -/
def Number.add : Number → Number → Number
  | .Integer a, .Integer b => .Integer (a + b)
  | .Integer a, .Float b => .Float (Float.ofInt a + b)
  | .Float a, .Integer b => .Float (a + Float.ofInt b)
  | .Float a, .Float b => .Float (a + b)

/-- Subtraction, from `impl Sub for &Number`. -/
def Number.sub : Number → Number → Number
  | .Integer a, .Integer b => .Integer (a - b)
  | .Integer a, .Float b => .Float (Float.ofInt a - b)
  | .Float a, .Integer b => .Float (a - Float.ofInt b)
  | .Float a, .Float b => .Float (a - b)

/-- Multiplication, from `impl Mul for &Number`. -/
def Number.mul : Number → Number → Number
  | .Integer a, .Integer b => .Integer (a * b)
  | .Integer a, .Float b => .Float (Float.ofInt a * b)
  | .Float a, .Integer b => .Float (a * Float.ofInt b)
  | .Float a, .Float b => .Float (a * b)

/-- Division, from `impl Div for &Number`. -/
def Number.div : Number → Number → Number
  | .Integer a, .Integer b => .Integer (intDiv a b)
  | .Integer a, .Float b => .Float (Float.ofInt a / b)
  | .Float a, .Integer b => .Float (a / Float.ofInt b)
  | .Float a, .Float b => .Float (a / b)

/-- Remainder, from `impl Rem for &Number`. -/
def Number.rem : Number → Number → Number
  | .Integer a, .Integer b => .Integer (intRem a b)
  | .Integer a, .Float b => .Float (floatRem (Float.ofInt a) b)
  | .Float a, .Integer b => .Float (floatRem a (Float.ofInt b))
  | .Float a, .Float b => .Float (floatRem a b)

/-- Exponentiation, from `Number::pow`: both operands are coerced to `f64`
and the result is always a `Float`. -/
def Number.pow (a b : Number) : Number :=
  let one : F64 := match a with | .Integer n => Float.ofInt n | .Float f => f
  let two : F64 := match b with | .Integer n => Float.ofInt n | .Float f => f
  .Float (Float.pow one two)

/-- Equality, from `impl PartialEq for Number` (cross-kind compares after
promotion to `f64`). -/
def Number.beq : Number → Number → Bool
  | .Integer a, .Integer b => a == b
  | .Integer a, .Float b => Float.ofInt a == b
  | .Float a, .Integer b => a == Float.ofInt b
  | .Float a, .Float b => a == b

/-- Strict less-than, from `impl PartialOrd for Number`. -/
def Number.ltb : Number → Number → Bool
  | .Integer a, .Integer b => decide (a < b)
  | .Integer a, .Float b => decide (Float.ofInt a < b)
  | .Float a, .Integer b => decide (a < Float.ofInt b)
  | .Float a, .Float b => decide (a < b)

/-- Less-or-equal, from `impl PartialOrd for Number`. -/
def Number.leb : Number → Number → Bool
  | .Integer a, .Integer b => decide (a ≤ b)
  | .Integer a, .Float b => decide (Float.ofInt a ≤ b)
  | .Float a, .Integer b => decide (a ≤ Float.ofInt b)
  | .Float a, .Float b => decide (a ≤ b)

/-- Strict greater-than, from `impl PartialOrd for Number`. -/
def Number.gtb (a b : Number) : Bool := Number.ltb b a

/-- Greater-or-equal, from `impl PartialOrd for Number`. -/
def Number.geb (a b : Number) : Bool := Number.leb b a

/-- Display text of a number, from `Number::to_string`.  The integer case
matches Rust `i64::to_string` exactly; the float case uses Lean's `Float`
formatting (Rust formats `f64` slightly differently, and no claim prints a
float). -/
def Number.to_string : Number → Str
  | .Integer a => toString a
  | .Float a => toString a

/-- Display text of a runtime value, from `Data::to_string`. -/
def Data.to_string : Data → Str
  | .Number n => n.to_string
  | .String s => s
  | .Boolean b => if b then "true" else "false"

/-! ## Rust string trimming (`str::trim`, used by the `Input` instruction) -/

/-- Whitespace test from Rust `char::is_whitespace`: the Unicode
`White_Space` property. -/
def rust_is_whitespace (c : Char) : Bool :=
  let n := c.toNat
  decide ((0x09 ≤ n ∧ n ≤ 0x0d) ∨ n = 0x20 ∨ n = 0x85 ∨ n = 0xa0 ∨ n = 0x1680 ∨
    (0x2000 ≤ n ∧ n ≤ 0x200a) ∨ n = 0x2028 ∨ n = 0x2029 ∨ n = 0x202f ∨ n = 0x205f ∨
    n = 0x3000)

/-- Rust `str::trim`: removes `char::is_whitespace` characters from BOTH
ends of the string. -/
def rustTrim (s : String) : String :=
  String.mk (((s.data.dropWhile rust_is_whitespace).reverse.dropWhile
    rust_is_whitespace).reverse)

/-! ## Frames and the VM (`interpreter.rs`) -/

/-- A stack frame, from `struct StackFrame { variables: HashMap<String, Data> }`;
the hash map is embedded as an association list with unique keys. -/
abbrev StackFrame := List (String × Data)

/-- The empty frame, from `StackFrame::empty`. -/
def StackFrame.emptyFrame : StackFrame := []

/-- Lookup in one frame, from `StackFrame::get_frame_variable`
(`HashMap::get`). -/
def frameGet : StackFrame → String → Option Data
  | [], _ => none
  | (k, v) :: rest, name => if k = name then some v else frameGet rest name

/-- Insertion into one frame, from `HashMap::insert`: replaces the binding
in place if the key is present, otherwise adds it. -/
def frameInsert : StackFrame → String → Data → StackFrame
  | [], name, d => [(name, d)]
  | (k, v) :: rest, name, d =>
    if k = name then (name, d) :: rest else (k, v) :: frameInsert rest name d

/-- The VM state, from `struct VM`.  The Rust `instructions` field is
initialized to `vec![]` and never read, so it is omitted.  `output` models
the lines written to stdout by `Print` (`println!`); `input` models the
lines still pending on stdin for `Input` (each entry is one raw line as
`read_line` returns it, trailing newline included). -/
structure VM where
  stack : List StackFrame
  output : List String
  input : List String
deriving Repr

/-- Fresh VM, from `VM::new` (empty frame stack), with a given pending
stdin. -/
def VM.new (input : List String) : VM := { stack := [], output := [], input := input }

/-- Variable lookup over the frame stack, from `VM::get_variable`:
Rust iterates `self.stack.iter_mut().enumerate().rev()`, i.e. from the
highest index (the frame pushed FIRST, since `execute_new_instructions`
inserts new frames at index 0) down to index 0, returning the first frame
that binds the name together with its index. -/
def getVarRev : List StackFrame → String → Option (Data × Nat)
  | [], _ => none
  | f :: rest, name =>
    match getVarRev rest name with
    | some (d, i) => some (d, i + 1)
    | none =>
      match frameGet f name with
      | some d => some (d, 0)
      | none => none

/-- Variable lookup searching in the opposite direction (index 0, the
innermost frame, first).  This is NOT in the source; it is the reference
direction used to state that lookup is direction-independent. -/
def getVarFwd : List StackFrame → String → Option (Data × Nat)
  | [], _ => none
  | f :: rest, name =>
    match frameGet f name with
    | some d => some (d, 0)
    | none =>
      match getVarFwd rest name with
      | some (d, i) => some (d, i + 1)
      | none => none

/-- Lookup entry point, from `VM::get_variable`. -/
def VM.get_variable (vm : VM) (name : String) : Option (Data × Nat) :=
  getVarRev vm.stack name

/-- Assignment resolution, from `VM::assign_variable`: if some frame binds
the name, overwrite the binding in that exact frame; otherwise insert into
`self.stack[0]` — which is the frame most recently inserted at the front,
i.e. the CURRENT INNERMOST frame.  (Rust would panic on an empty stack;
during execution the stack is never empty, and `List.set`/`getD` make the
Lean function total.) -/
def VM.assign_variable (vm : VM) (name : String) (d : Data) : VM :=
  match getVarRev vm.stack name with
  | some (_, i) => { vm with stack := vm.stack.set i (frameInsert (vm.stack.getD i []) name d) }
  | none => { vm with stack := vm.stack.set 0 (frameInsert (vm.stack.getD 0 []) name d) }

/-! ## Execution results

Rust threads `Result<_, InterpreterError>` with `?` everywhere; `ok`/`err`
carry the VM state as it stands at that point (in Rust the state lives in
the `&mut VM`).  `fault` is a Rust panic (`unwrap` / `expect` /
`unreachable!`); the panic message is not modelled.  `timeout` is the
out-of-fuel artifact of the embedding. -/
inductive ExecResult (α : Type) where
  | ok (val : α) (vm : VM)
  | err (e : InterpreterError) (vm : VM)
  | fault
  | timeout

/-- Sequencing of execution results: exactly the Rust `?` operator
(propagates `err`, and a panic or missing fuel aborts everything). -/
def ExecResult.bind {α β : Type} (r : ExecResult α) (f : α → VM → ExecResult β) :
    ExecResult β :=
  match r with
  | .ok a vm => f a vm
  | .err e vm => .err e vm
  | .fault => .fault
  | .timeout => .timeout

/-! ## Expression evaluation (`StackFrame::evaluate_value` and the two
assignment helpers in `interpreter.rs`)

Every function takes `fuel` first, returns `timeout` at fuel 0 and passes
the decremented fuel to every call, which makes the mutual recursion
structural on `fuel`. -/

mutual

/-- Expression evaluation, from `StackFrame::evaluate_value`.  The
executing `StackFrame` (`self`) is `vm.stack` index 0 (Rust aliases them
via the `unsafe` block in `execute_new_instructions`), so the whole state
is just the `VM`. -/
def evalValue (fuel : Nat) (v : Value) (vm : VM) : ExecResult Data :=
  match fuel with
  | 0 => .timeout
  | fuel + 1 =>
    match v with
    | .Number n => .ok (.Number n) vm
    | .String s => .ok (.String s) vm
    | .Boolean b => .ok (.Boolean b) vm
    | .Identifier name =>
      match vm.get_variable name with
      | none => .err (.VariableNotDefined name) vm
      | some (d, _) => .ok d vm
    | .Expression op left right =>
      match op with
      | .Add =>
        (evalBinOperands fuel left right vm).bind fun (dl, dr) vm1 =>
          match dl, dr with
          | .Number a, .Number b => .ok (.Number (a.add b)) vm1
          | .String a, .String b => .ok (.String (a ++ b)) vm1
          | _, _ => .err (.TypeMismatch "Expected 2 strings or 2 numbers when adding") vm1
      | .Subtract =>
        (evalBinOperands fuel left right vm).bind fun (dl, dr) vm1 =>
          match dl, dr with
          | .Number a, .Number b => .ok (.Number (a.sub b)) vm1
          | _, _ => .err (.TypeMismatch "Expected 2 numbers when subtracting") vm1
      | .Multiply =>
        (evalBinOperands fuel left right vm).bind fun (dl, dr) vm1 =>
          match dl, dr with
          | .Number a, .Number b => .ok (.Number (a.mul b)) vm1
          | _, _ => .err (.TypeMismatch "Expected 2 numbers when multiplying") vm1
      | .Divide =>
        (evalBinOperands fuel left right vm).bind fun (dl, dr) vm1 =>
          match dl, dr with
          | .Number a, .Number b => .ok (.Number (a.div b)) vm1
          | _, _ => .err (.TypeMismatch "Expected 2 numbers when dividing") vm1
      | .Modulo =>
        (evalBinOperands fuel left right vm).bind fun (dl, dr) vm1 =>
          match dl, dr with
          | .Number a, .Number b => .ok (.Number (a.rem b)) vm1
          | _, _ => .err (.TypeMismatch "Expected 2 numbers when taking modulo") vm1
      | .Exponent =>
        (evalBinOperands fuel left right vm).bind fun (dl, dr) vm1 =>
          match dl, dr with
          | .Number a, .Number b => .ok (.Number (a.pow b)) vm1
          | _, _ => .err (.TypeMismatch "Expected 2 numbers when taking exponent") vm1
      | .Equal =>
        (evalBinOperands fuel left right vm).bind fun (dl, dr) vm1 =>
          match dl, dr with
          | .Number a, .Number b => .ok (.Boolean (a.beq b)) vm1
          | .String a, .String b => .ok (.Boolean (a == b)) vm1
          | .Boolean a, .Boolean b => .ok (.Boolean (a == b)) vm1
          | _, _ => .ok (.Boolean false) vm1
      | .NotEqual =>
        (evalBinOperands fuel left right vm).bind fun (dl, dr) vm1 =>
          match dl, dr with
          | .Number a, .Number b => .ok (.Boolean (!a.beq b)) vm1
          | .String a, .String b => .ok (.Boolean (!(a == b))) vm1
          | .Boolean a, .Boolean b => .ok (.Boolean (!(a == b))) vm1
          | _, _ => .ok (.Boolean true) vm1
      | .LessThan =>
        (evalBinOperands fuel left right vm).bind fun (dl, dr) vm1 =>
          match dl, dr with
          | .Number a, .Number b => .ok (.Boolean (a.ltb b)) vm1
          | _, _ => .err (.TypeMismatch "Expected 2 numbers ") vm1
      | .LessThanOrEqual =>
        (evalBinOperands fuel left right vm).bind fun (dl, dr) vm1 =>
          match dl, dr with
          | .Number a, .Number b => .ok (.Boolean (a.leb b)) vm1
          | _, _ => .err (.TypeMismatch "Expected 2 numbers ") vm1
      | .GreaterThan =>
        (evalBinOperands fuel left right vm).bind fun (dl, dr) vm1 =>
          match dl, dr with
          | .Number a, .Number b => .ok (.Boolean (a.gtb b)) vm1
          | _, _ => .err (.TypeMismatch "Expected 2 numbers ") vm1
      | .GreaterThanOrEqual =>
        (evalBinOperands fuel left right vm).bind fun (dl, dr) vm1 =>
          match dl, dr with
          | .Number a, .Number b => .ok (.Boolean (a.geb b)) vm1
          | _, _ => .err (.TypeMismatch "Expected 2 numbers ") vm1
      | .And =>
        (evalBinOperands fuel left right vm).bind fun (dl, dr) vm1 =>
          match dl, dr with
          | .Boolean a, .Boolean b => .ok (.Boolean (a && b)) vm1
          | _, _ => .err (.TypeMismatch "Expected 2 booleans ") vm1
      | .Or =>
        (evalBinOperands fuel left right vm).bind fun (dl, dr) vm1 =>
          match dl, dr with
          | .Boolean a, .Boolean b => .ok (.Boolean (a || b)) vm1
          | _, _ => .err (.TypeMismatch "Expected 2 booleans ") vm1
      | .Not =>
        (evalValue fuel left vm).bind fun dl vm1 =>
          match dl with
          | .Boolean a => .ok (.Boolean (!a)) vm1
          | _ => .err (.TypeMismatch "Expected 1 boolean ") vm1
      | .Brackets => evalValue fuel left vm
      | .Assign =>
        match right with
        | none => .fault
        | some r => assignVariableValue fuel left r vm
      | .AddAssign =>
        match right with
        | none => .fault
        | some r => assignVariableWithOperator fuel left r .Add vm
      | .SubtractAssign =>
        match right with
        | none => .fault
        | some r => assignVariableWithOperator fuel left r .Subtract vm
      | .MultiplyAssign =>
        match right with
        | none => .fault
        | some r => assignVariableWithOperator fuel left r .Multiply vm
      | .DivideAssign =>
        match right with
        | none => .fault
        | some r => assignVariableWithOperator fuel left r .Divide vm
      | .ModuloAssign =>
        match right with
        | none => .fault
        | some r => assignVariableWithOperator fuel left r .Modulo vm
termination_by structural fuel

/-- Left-then-right operand evaluation: the pattern repeated in every
binary-operator arm of `evaluate_value` — evaluate the left operand, then
`.expect(..)` the right operand to be present (a panic, hence `fault`, when
it is not), then evaluate it. -/
def evalBinOperands (fuel : Nat) (left : Value) (right : Option Value) (vm : VM) :
    ExecResult (Data × Data) :=
  match fuel with
  | 0 => .timeout
  | fuel + 1 =>
    (evalValue fuel left vm).bind fun dl vm1 =>
      match right with
      | none => .fault
      | some r => (evalValue fuel r vm1).bind fun dr vm2 => .ok (dl, dr) vm2
termination_by structural fuel

/-- Plain assignment, from `StackFrame::assign_variable`: the left side
must be a bare identifier (else a type mismatch), then the right side is
evaluated and written via `VM::assign_variable`; the written value is
returned. -/
def assignVariableValue (fuel : Nat) (left right : Value) (vm : VM) :
    ExecResult Data :=
  match fuel with
  | 0 => .timeout
  | fuel + 1 =>
    match left with
    | .Identifier name =>
      (evalValue fuel right vm).bind fun d vm1 =>
        .ok d (vm1.assign_variable name d)
    | _ => .err (.TypeMismatch "Expected identifier on left side of assignment") vm
termination_by structural fuel

/-- Compound assignment, from `StackFrame::assign_variable_with_operator`:
the caller already maps `+=` to `Add` (and so on); the function maps
compound operators to their base once more (a no-op on what it actually
receives), rebuilds the expression `name <op> rhs`, evaluates it and writes
the result via `VM::assign_variable`. -/
def assignVariableWithOperator (fuel : Nat) (left right : Value) (op : Operator)
    (vm : VM) : ExecResult Data :=
  match fuel with
  | 0 => .timeout
  | fuel + 1 =>
    match left with
    | .Identifier name =>
      let baseOp : Operator :=
        match op with
        | .AddAssign => .Add
        | .SubtractAssign => .Subtract
        | .MultiplyAssign => .Multiply
        | .DivideAssign => .Divide
        | .ModuloAssign => .Modulo
        | _ => op
      (evalValue fuel (.Expression baseOp left (some right)) vm).bind fun d vm1 =>
        .ok d (vm1.assign_variable name d)
    | _ => .err (.TypeMismatch "Expected identifier on left side of assignment") vm
termination_by structural fuel

end

/-! ## Instruction execution (`StackFrame::run`, `VM::execute_new_instructions`) -/

/-- The update of `should_execute_else` performed at the top of every
iteration of the `for` loop in `StackFrame::run`:
`Some(true)` becomes `Some(false)`, `Some(false)` becomes `None`, `None`
stays `None`. -/
def elseUpdate : Option Bool → Option Bool
  | none => none
  | some true => some false
  | some false => none

mutual

/-- The instruction loop, from `StackFrame::run`.  `flag` is the
`should_execute_else` local (`none` initially); each iteration first
applies `elseUpdate`, then dispatches on the instruction:

* `Break` exits the loop: the remaining instructions are dropped and the
  function returns `Ok(())`.
* `Value` evaluates the expression and `unwrap`s the result: a runtime
  error here is a PANIC (`fault`), not a propagated error.
* `If` with a false condition arms the flag (`some true`) for the next
  instruction; a non-boolean condition is a type mismatch.
* `Else` runs its block iff the updated flag is `some _`, i.e. iff the flag
  was `some true` before the update.
* nested blocks run through `executeNewInstructions`, `While` through
  `runWhile`; their errors propagate (`?`). -/
def runLoop (fuel : Nat) (flag : Option Bool) (instructions : List Instruction)
    (vm : VM) : ExecResult Unit :=
  match fuel with
  | 0 => .timeout
  | fuel + 1 =>
    match instructions with
    | [] => .ok () vm
    | instr :: rest =>
      let flag1 := elseUpdate flag
      match instr with
      | .Break => .ok () vm
      | .Value v =>
        match evalValue fuel v vm with
        | .ok _ vm1 => runLoop fuel flag1 rest vm1
        | .err _ _ => .fault
        | .fault => .fault
        | .timeout => .timeout
      | .If c blk =>
        (evalValue fuel c vm).bind fun condition vm1 =>
          match condition with
          | .Boolean true =>
            (executeNewInstructions fuel blk vm1).bind fun _ vm2 =>
              runLoop fuel flag1 rest vm2
          | .Boolean false => runLoop fuel (some true) rest vm1
          | _ => .err (.TypeMismatch "Expected boolean for if condition") vm1
      | .Else blk =>
        match flag1 with
        | some _ =>
          (executeNewInstructions fuel blk vm).bind fun _ vm1 =>
            runLoop fuel flag1 rest vm1
        | none => runLoop fuel flag1 rest vm
      | .While c blk =>
        (runWhile fuel c blk vm).bind fun _ vm1 => runLoop fuel flag1 rest vm1
      | .Scope blk =>
        (executeNewInstructions fuel blk vm).bind fun _ vm1 =>
          runLoop fuel flag1 rest vm1
      | .Print msg =>
        (evalValue fuel msg vm).bind fun d vm1 =>
          runLoop fuel flag1 rest { vm1 with output := vm1.output ++ [d.to_string] }
      | .Input x =>
        let line := match vm.input with | [] => "" | l :: _ => l
        let vm1 : VM := { vm with input := vm.input.drop 1 }
        let vm2 := vm1.assign_variable x (.String (rustTrim line))
        runLoop fuel flag1 rest vm2
termination_by structural fuel

/-- Block entry/exit, from `VM::execute_new_instructions`: insert one fresh
frame at index 0, run the block (`StackFrame::execute`, i.e. `run` with the
flag starting at `None`), then remove index 0 — but the removal happens
AFTER the `?` on `execute`, so on the `err` path the pushed frame is NOT
removed. -/
def executeNewInstructions (fuel : Nat) (instructions : List Instruction)
    (vm : VM) : ExecResult Unit :=
  match fuel with
  | 0 => .timeout
  | fuel + 1 =>
    let vm1 : VM := { vm with stack := StackFrame.emptyFrame :: vm.stack }
    (runLoop fuel none instructions vm1).bind fun _ vm2 =>
      .ok () { vm2 with stack := vm2.stack.drop 1 }
termination_by structural fuel

/-- The `while` loop inside `StackFrame::run`: re-evaluate the condition
(which must be a boolean, else the type mismatch whose message the source
shares with `If`), and as long as it is true run the body in a fresh
frame. -/
def runWhile (fuel : Nat) (condition : Value) (body : List Instruction)
    (vm : VM) : ExecResult Unit :=
  match fuel with
  | 0 => .timeout
  | fuel + 1 =>
    (evalValue fuel condition vm).bind fun condValue vm1 =>
      match condValue with
      | .Boolean true =>
        (executeNewInstructions fuel body vm1).bind fun _ vm2 =>
          runWhile fuel condition body vm2
      | .Boolean false => .ok () vm1
      | _ => .err (.TypeMismatch "Expected boolean for if condition") vm1
termination_by structural fuel

end

/-- Whole-program execution, from `interpreter::interpret`: a fresh VM
(empty frame stack) runs the instruction list as one block. -/
def interpret (fuel : Nat) (instructions : List Instruction)
    (input : List String) : ExecResult Unit :=
  executeNewInstructions fuel instructions (VM.new input)

/-! ## Reference run loop with structural `If`/`Else` adjacency

The following three functions are NOT from the source.  They are modelled
from the spec sentence: an `Else` "executes its block in a fresh frame only
if the immediately preceding instruction was an `If` that evaluated false;
otherwise a no-op".  Instead of the source's `Option Bool` flag dance they
thread the boolean `prevFalseIf` — "the instruction immediately before the
current one was an `If` whose condition evaluated to false".  Everything
else is identical to `runLoop`/`executeNewInstructions`/`runWhile`
(expression evaluation is shared).  Claim C6 is settled by proving the two
families equal. -/

mutual

/-- Modelled from the spec: the run loop with `Else` keyed directly to
"the previous instruction was an `If` that evaluated false". -/
def runLoopAdj (fuel : Nat) (prevFalseIf : Bool)
    (instructions : List Instruction) (vm : VM) : ExecResult Unit :=
  match fuel with
  | 0 => .timeout
  | fuel + 1 =>
    match instructions with
    | [] => .ok () vm
    | instr :: rest =>
      match instr with
      | .Break => .ok () vm
      | .Value v =>
        match evalValue fuel v vm with
        | .ok _ vm1 => runLoopAdj fuel false rest vm1
        | .err _ _ => .fault
        | .fault => .fault
        | .timeout => .timeout
      | .If c blk =>
        (evalValue fuel c vm).bind fun condition vm1 =>
          match condition with
          | .Boolean true =>
            (executeNewInstructionsAdj fuel blk vm1).bind fun _ vm2 =>
              runLoopAdj fuel false rest vm2
          | .Boolean false => runLoopAdj fuel true rest vm1
          | _ => .err (.TypeMismatch "Expected boolean for if condition") vm1
      | .Else blk =>
        if prevFalseIf then
          (executeNewInstructionsAdj fuel blk vm).bind fun _ vm1 =>
            runLoopAdj fuel false rest vm1
        else runLoopAdj fuel false rest vm
      | .While c blk =>
        (runWhileAdj fuel c blk vm).bind fun _ vm1 => runLoopAdj fuel false rest vm1
      | .Scope blk =>
        (executeNewInstructionsAdj fuel blk vm).bind fun _ vm1 =>
          runLoopAdj fuel false rest vm1
      | .Print msg =>
        (evalValue fuel msg vm).bind fun d vm1 =>
          runLoopAdj fuel false rest { vm1 with output := vm1.output ++ [d.to_string] }
      | .Input x =>
        let line := match vm.input with | [] => "" | l :: _ => l
        let vm1 : VM := { vm with input := vm.input.drop 1 }
        let vm2 := vm1.assign_variable x (.String (rustTrim line))
        runLoopAdj fuel false rest vm2
termination_by structural fuel

/-- Modelled from the spec: block entry/exit over `runLoopAdj` (a fresh
frame, and inside the block no instruction precedes the first one). -/
def executeNewInstructionsAdj (fuel : Nat) (instructions : List Instruction)
    (vm : VM) : ExecResult Unit :=
  match fuel with
  | 0 => .timeout
  | fuel + 1 =>
    let vm1 : VM := { vm with stack := StackFrame.emptyFrame :: vm.stack }
    (runLoopAdj fuel false instructions vm1).bind fun _ vm2 =>
      .ok () { vm2 with stack := vm2.stack.drop 1 }
termination_by structural fuel

/-- Modelled from the spec: the `while` loop over
`executeNewInstructionsAdj`. -/
def runWhileAdj (fuel : Nat) (condition : Value) (body : List Instruction)
    (vm : VM) : ExecResult Unit :=
  match fuel with
  | 0 => .timeout
  | fuel + 1 =>
    (evalValue fuel condition vm).bind fun condValue vm1 =>
      match condValue with
      | .Boolean true =>
        (executeNewInstructionsAdj fuel body vm1).bind fun _ vm2 =>
          runWhileAdj fuel condition body vm2
      | .Boolean false => .ok () vm1
      | _ => .err (.TypeMismatch "Expected boolean for if condition") vm1
termination_by structural fuel

end

/-! ## Parsing (`parser.rs`)

The Rust parser consumes a `Peekable` iterator; here every function takes
the list of remaining tokens and the span-extraction helpers additionally
return the unconsumed remainder.  `parse` and `parse_value` recurse into
extracted spans, so they carry fuel like the interpreter. -/

/-- Parse results: `timeout` is the out-of-fuel artifact of the
embedding. -/
inductive ParseResult (α : Type) where
  | ok (a : α)
  | err (e : ParserError)
  | timeout

/-- Bracket-depth-counted span extraction, from
`parse_already_open_brackets`: one `(` has already been consumed (`count`
starts at 1); returns the tokens before the matching `)` (the `)` itself is
consumed but not collected) and the remainder, or `UnexpectedEnd` when the
tokens run out first. -/
def splitBrackets (count : Nat) : List Token → Except ParserError (List Token × List Token)
  | [] => .error .UnexpectedEnd
  | t :: rest =>
    let count1 : Nat :=
      match t with
      | .BracketOpen => count + 1
      | .BracketClose => count - 1
      | _ => count
    if count1 = 0 then .ok ([], rest)
    else
      match splitBrackets count1 rest with
      | .ok (span, rem) => .ok (t :: span, rem)
      | .error e => .error e

/-- Entry to `parse_already_open_brackets` with the Rust initial count. -/
def parse_already_open_brackets (tokens : List Token) :
    Except ParserError (List Token × List Token) :=
  splitBrackets 1 tokens

/-- From `parse_brackets`: expect a `(` (else `ExpectedToken`), then
extract the bracket-counted span. -/
def parse_brackets : List Token → Except ParserError (List Token × List Token)
  | .BracketOpen :: rest => parse_already_open_brackets rest
  | _ => .error (.ExpectedToken .BracketOpen)

/-- Scope-depth-counted span extraction, from `parse_already_open_scope`
(without its final recursive `parse` call): one `{` has already been
consumed; returns the tokens before the matching `}` and the remainder. -/
def splitScope (count : Nat) : List Token → Except ParserError (List Token × List Token)
  | [] => .error .UnexpectedEnd
  | t :: rest =>
    let count1 : Nat :=
      match t with
      | .ScopeOpen => count + 1
      | .ScopeClose => count - 1
      | _ => count
    if count1 = 0 then .ok ([], rest)
    else
      match splitScope count1 rest with
      | .ok (span, rem) => .ok (t :: span, rem)
      | .error e => .error e

/-- Expression-statement token collection: the inner `while let` loop of
`parse`'s fall-through arm.  Collects value tokens up to (but not
consuming) the `EndStatement`; a token of any other kind is
`UnexpectedToken`. -/
def collectValueTokens : List Token → Except ParserError (List Token × List Token)
  | [] => .ok ([], [])
  | t :: rest =>
    match t with
    | .EndStatement => .ok ([], .EndStatement :: rest)
    | .Number n => collectCons (.Number n) rest
    | .String s => collectCons (.String s) rest
    | .Boolean b => collectCons (.Boolean b) rest
    | .Identifier s => collectCons (.Identifier s) rest
    | .Operator op => collectCons (.Operator op) rest
    | .BracketOpen => collectCons .BracketOpen rest
    | .BracketClose => collectCons .BracketClose rest
    | _ => .error (.UnexpectedToken t)
where
  /-- Collect one token and continue. -/
  collectCons (t : Token) (rest : List Token) :
      Except ParserError (List Token × List Token) :=
    match collectValueTokens rest with
    | .ok (span, rem) => .ok (t :: span, rem)
    | .error e => .error e

/-- Expression parsing, from `parse_value`: the loop state is the
optional already-parsed left operand (`value` in Rust) plus the remaining
tokens.

* with no operand yet: a literal or identifier becomes the operand; a `(`
  extracts the bracketed span, recursively parses it, and the result
  becomes the operand; a `)` is `UnexpectedToken`; an `EndStatement` is
  `UnexpectedEnd`; anything else — INCLUDING any operator, so also a
  prefix `!` — is `UnexpectedToken`.
* with an operand: only an operator may follow.  `Not`/`Brackets` wrap the
  operand as a unary expression (postfix) and the loop continues; any
  other operator recursively parses the ENTIRE remaining span as its right
  operand (the Rust loop then finds its iterator exhausted and returns),
  yielding the purely right-nesting tree. -/
def parseValueLoop (fuel : Nat) (acc : Option Value) (tokens : List Token) :
    ParseResult Value :=
  match fuel with
  | 0 => .timeout
  | fuel + 1 =>
    match tokens with
    | [] =>
      match acc with
      | some v => .ok v
      | none => .err .UnexpectedEnd
    | t :: rest =>
      match acc with
      | some leftHand =>
        match t with
        | .Operator op =>
          match op with
          | .Not => parseValueLoop fuel (some (.Expression .Not leftHand none)) rest
          | .Brackets =>
            parseValueLoop fuel (some (.Expression .Brackets leftHand none)) rest
          | _ =>
            match parseValueLoop fuel none rest with
            | .ok r => .ok (.Expression op leftHand (some r))
            | .err e => .err e
            | .timeout => .timeout
        | _ => .err (.ExpectedToken t)
      | none =>
        match t with
        | .Identifier s => parseValueLoop fuel (some (.Identifier s)) rest
        | .Number n => parseValueLoop fuel (some (.Number n)) rest
        | .String s => parseValueLoop fuel (some (.String s)) rest
        | .Boolean b => parseValueLoop fuel (some (.Boolean b)) rest
        | .BracketOpen =>
          match parse_already_open_brackets rest with
          | .error e => .err e
          | .ok (span, rem) =>
            match parseValueLoop fuel none span with
            | .ok v => parseValueLoop fuel (some v) rem
            | .err e => .err e
            | .timeout => .timeout
        | .BracketClose => .err (.UnexpectedToken .BracketClose)
        | .EndStatement => .err .UnexpectedEnd
        | _ => .err (.UnexpectedToken t)
termination_by structural fuel

/-- Entry point of the expression parser (`parse_value` with its `value`
local starting at `None`). -/
def parse_value (fuel : Nat) (tokens : List Token) : ParseResult Value :=
  parseValueLoop fuel none tokens

mutual

/-- The statement parser, from `parse`: dispatches on the leading token.
Note that `ScopeOpen` (a bare `{ ... }` block) has NO arm in the Rust
`match` and falls to the `_ => Err(UnexpectedToken)` catch-all: the parser
never produces an `Instruction::Scope`. -/
def parse (fuel : Nat) (tokens : List Token) : ParseResult (List Instruction) :=
  match fuel with
  | 0 => .timeout
  | fuel + 1 =>
    match tokens with
    | [] => .ok []
    | t :: rest =>
      match t with
      | .Comment _ => parse fuel rest
      | .EndStatement => parse fuel rest
      | .Keyword .If =>
        match parse_brackets rest with
        | .error e => .err e
        | .ok (condTokens, rest1) =>
          match parse_value fuel condTokens with
          | .err e => .err e
          | .timeout => .timeout
          | .ok condition =>
            match parse_scope fuel rest1 with
            | .err e => .err e
            | .timeout => .timeout
            | .ok (blk, rest2) =>
              match parse fuel rest2 with
              | .ok instrs => .ok (.If condition blk :: instrs)
              | .err e => .err e
              | .timeout => .timeout
      | .Keyword .Else =>
        match parse_scope fuel rest with
        | .err e => .err e
        | .timeout => .timeout
        | .ok (blk, rest1) =>
          match parse fuel rest1 with
          | .ok instrs => .ok (.Else blk :: instrs)
          | .err e => .err e
          | .timeout => .timeout
      | .Keyword .While =>
        match parse_brackets rest with
        | .error e => .err e
        | .ok (condTokens, rest1) =>
          match parse_value fuel condTokens with
          | .err e => .err e
          | .timeout => .timeout
          | .ok condition =>
            match parse_scope fuel rest1 with
            | .err e => .err e
            | .timeout => .timeout
            | .ok (blk, rest2) =>
              match parse fuel rest2 with
              | .ok instrs => .ok (.While condition blk :: instrs)
              | .err e => .err e
              | .timeout => .timeout
      | .Keyword .Print =>
        match parse_brackets rest with
        | .error e => .err e
        | .ok (valueTokens, rest1) =>
          match parse_value fuel valueTokens with
          | .err e => .err e
          | .timeout => .timeout
          | .ok msg =>
            match parse fuel rest1 with
            | .ok instrs => .ok (.Print msg :: instrs)
            | .err e => .err e
            | .timeout => .timeout
      | .Keyword .Input =>
        match rest with
        | .Identifier x :: rest1 =>
          match parse fuel rest1 with
          | .ok instrs => .ok (.Input x :: instrs)
          | .err e => .err e
          | .timeout => .timeout
        | _ => .err (.ExpectedToken (.Identifier ""))
      | .Keyword .Break =>
        match parse fuel rest with
        | .ok instrs => .ok (.Break :: instrs)
        | .err e => .err e
        | .timeout => .timeout
      | .Number n => parseValueStatement fuel (.Number n) rest
      | .String s => parseValueStatement fuel (.String s) rest
      | .Boolean b => parseValueStatement fuel (.Boolean b) rest
      | .Identifier s => parseValueStatement fuel (.Identifier s) rest
      | .Operator op => parseValueStatement fuel (.Operator op) rest
      | .BracketOpen => parseValueStatement fuel .BracketOpen rest
      | _ => .err (.UnexpectedToken t)
termination_by structural fuel

/-- The fall-through arm of `parse`: collect the bare-expression statement
up to the statement terminator, expression-parse it, wrap it as a `Value`
instruction and continue. -/
def parseValueStatement (fuel : Nat) (first : Token) (rest : List Token) :
    ParseResult (List Instruction) :=
  match fuel with
  | 0 => .timeout
  | fuel + 1 =>
    match collectValueTokens rest with
    | .error e => .err e
    | .ok (span, rem) =>
      match parse_value fuel (first :: span) with
      | .err e => .err e
      | .timeout => .timeout
      | .ok v =>
        match parse fuel rem with
        | .ok instrs => .ok (.Value v :: instrs)
        | .err e => .err e
        | .timeout => .timeout
termination_by structural fuel

/-- From `parse_scope`: expect a `{` (else `ExpectedToken`), extract the
scope-counted span, and statement-parse its contents
(`parse_already_open_scope`); returns the parsed block and the
remainder. -/
def parse_scope (fuel : Nat) (tokens : List Token) :
    ParseResult (List Instruction × List Token) :=
  match fuel with
  | 0 => .timeout
  | fuel + 1 =>
    match tokens with
    | .ScopeOpen :: rest =>
      match splitScope 1 rest with
      | .error e => .err e
      | .ok (span, rem) =>
        match parse fuel span with
        | .ok instrs => .ok (instrs, rem)
        | .err e => .err e
        | .timeout => .timeout
    | _ => .err (.ExpectedToken .ScopeOpen)
termination_by structural fuel

end

/-! ## Concrete programs used in the theorems -/

/-- Token stream of the program `{ b = 3; } print(b);` (as `tokenize`
produces it). -/
def toksScopeB : List Token :=
  [.ScopeOpen, .Identifier "b", .Operator .Assign, .Number (.Integer 3),
   .EndStatement, .ScopeClose, .Keyword .Print, .BracketOpen, .Identifier "b",
   .BracketClose, .EndStatement]

/-- Instruction tree corresponding to `{ b = 3; } print(b);` (built by
hand, since the statement parser has no arm for a bare scope). -/
def progScopeB : List Instruction :=
  [.Scope [.Value (.Expression .Assign (.Identifier "b") (some (.Number (.Integer 3))))],
   .Print (.Identifier "b")]

/-- Instruction tree of `while (true) { if (true) { break; } }`. -/
def progWhileIfBreak : List Instruction :=
  [.While (.Boolean true) [.If (.Boolean true) [.Break]]]

/-- Condition and body of `progWhileIfBreak`, for the loop lemma. -/
def whileIfBreakBody : List Instruction := [.If (.Boolean true) [.Break]]

/-- A VM with a single empty frame (the state inside the top-level
block). -/
def vmOneFrame : VM := { stack := [[]], output := [], input := [] }

/-- The side-effecting right operand `(x = 5) == 5`. -/
def assignEqFive : Value :=
  .Expression .Equal
    (.Expression .Assign (.Identifier "x") (some (.Number (.Integer 5))))
    (some (.Number (.Integer 5)))

/-! ## Predicates used by the invariance theorems -/

/-- Stack-length predicate for expression evaluation: evaluation never
pushes or pops frames, so `ok` AND `err` states keep the input length. -/
def stackLenPred {α : Type} (n : Nat) : ExecResult α → Prop
  | .ok _ s => s.stack.length = n
  | .err _ s => s.stack.length = n
  | .fault => True
  | .timeout => True

/-- Stack-length predicate for the run loop: normal completion restores
the input length; an error leaves it at least the input length (inner
blocks leak their frames). -/
def runLenPred (n : Nat) : ExecResult Unit → Prop
  | .ok _ s => s.stack.length = n
  | .err _ s => n ≤ s.stack.length
  | .fault => True
  | .timeout => True

/-- Stack-length predicate for `executeNewInstructions`: normal completion
restores the input length; an error leaves the pushed frame (and possibly
deeper ones) on the stack — at least one more than the input length. -/
def execLenPred (n : Nat) : ExecResult Unit → Prop
  | .ok _ s => s.stack.length = n
  | .err _ s => n + 1 ≤ s.stack.length
  | .fault => True
  | .timeout => True

/-- Does this frame bind the given name? -/
def bindsIn (name : String) (f : StackFrame) : Bool := (frameGet f name).isSome

/-- In how many frames of the stack is the name bound? -/
def countBound (stack : List StackFrame) (name : String) : Nat :=
  stack.countP (bindsIn name)

/-- The unique-binding invariant: every name is bound in at most one frame
of the stack. -/
def UniqueBinding (vm : VM) : Prop := ∀ name, countBound vm.stack name ≤ 1

/-- The unique-binding invariant on the state carried by a result. -/
def holdsUnique {α : Type} : ExecResult α → Prop
  | .ok _ s => UniqueBinding s
  | .err _ s => UniqueBinding s
  | .fault => True
  | .timeout => True

/-! ## C10 -/

/-- C10: the expression parser rejects prefix logical negation — a span
whose FIRST token is the `Not` operator fails with `UnexpectedToken`
(first conjunct, for every remainder) — and a `Not` node is built only in
postfix position, wrapping the already-complete operand to its left
(second conjunct). -/
theorem c10_not_postfix_only :
    (∀ fuel rest, parse_value (fuel + 1) (.Operator .Not :: rest) =
      .err (.UnexpectedToken (.Operator .Not)))
    ∧ (∀ fuel v rest, parseValueLoop (fuel + 1) (some v) (.Operator .Not :: rest) =
      parseValueLoop fuel (some (.Expression .Not v none)) rest) := by
  exact ⟨fun _ _ => rfl, fun _ _ _ => rfl⟩

/-- Closed instance of `c10_not_postfix_only`. -/
theorem c10_not_postfix_only_witness :
    parse_value 5 [.Operator .Not, .Boolean true] =
      .err (.UnexpectedToken (.Operator .Not))
    ∧ parseValueLoop 5 (some (.Boolean true)) [.Operator .Not] =
      parseValueLoop 4 (some (.Expression .Not (.Boolean true) none)) [] := by
  exact ⟨c10_not_postfix_only.1 4 [.Boolean true],
    c10_not_postfix_only.2 4 (.Boolean true) []⟩

/-! ## C4 -/

/-- C4: after a complete left operand, any binary operator takes the
ENTIRE remaining span as its right operand (first conjunct), so operator
chains nest purely to the right: `10 - 3 - 2` parses as `10 - (3 - 2)`
(second conjunct) and evaluates to the integer 9, not 5 (third
conjunct). -/
theorem c4_right_nesting :
    (∀ fuel v op rest, op ≠ .Not → op ≠ .Brackets →
      parseValueLoop (fuel + 1) (some v) (.Operator op :: rest) =
        match parse_value fuel rest with
        | .ok r => .ok (.Expression op v (some r))
        | .err e => .err e
        | .timeout => .timeout)
    ∧ parse_value 10 [.Number (.Integer 10), .Operator .Subtract,
        .Number (.Integer 3), .Operator .Subtract, .Number (.Integer 2)] =
      .ok (.Expression .Subtract (.Number (.Integer 10))
        (some (.Expression .Subtract (.Number (.Integer 3))
          (some (.Number (.Integer 2))))))
    ∧ evalValue 10
        (.Expression .Subtract (.Number (.Integer 10))
          (some (.Expression .Subtract (.Number (.Integer 3))
            (some (.Number (.Integer 2)))))) (VM.new []) =
      .ok (.Number (.Integer 9)) (VM.new []) := by
  refine ⟨fun fuel v op rest h1 h2 => ?_, rfl, rfl⟩
  cases op <;> first
    | rfl
    | exact absurd rfl h1
    | exact absurd rfl h2

/-- Closed instance of the universally quantified part of
`c4_right_nesting`. -/
theorem c4_right_nesting_witness :
    parseValueLoop 4 (some (.Number (.Integer 10)))
        [.Operator .Subtract, .Number (.Integer 3)] =
      match parse_value 3 [.Number (.Integer 3)] with
      | .ok r => .ok (.Expression .Subtract (.Number (.Integer 10)) (some r))
      | .err e => .err e
      | .timeout => .timeout := by
  exact c4_right_nesting.1 3 (.Number (.Integer 10)) .Subtract
    [.Number (.Integer 3)] (by intro h; cases h) (by intro h; cases h)

/-! ## C3 -/

/-- C3 (code bug): a runtime error raised while evaluating a bare
expression statement (the `Value` instruction) does NOT propagate as a
typed error: `run` calls `.unwrap()` on the evaluation result, so the
program `x;` with `x` undefined PANICS (`fault`), for every sufficient
fuel, instead of returning `VariableNotDefined("x")` to the caller as the
claim states.  (Every other instruction propagates via `?`.) -/
theorem c3_value_instruction_faults :
    ∀ fuel, interpret (fuel + 3) [.Value (.Identifier "x")] [] = .fault := by
  intro fuel
  rfl

/-! ## C1 -/

/-- C1 is false on the code: (i) the token stream of `{ b = 3; } print(b);`
is rejected by the statement parser (`ScopeOpen` has no arm and hits the
catch-all `UnexpectedToken`), so the program cannot print anything; (ii) an
assignment to an unbound name lands in the frame at index 0, which is the
INNERMOST frame (the front of the stack, where `execute_new_instructions`
inserts), not the outermost one — starting from two empty frames the
binding appears in the first (innermost) frame and the outermost frame
stays empty; (iii) executing the corresponding instruction tree fails with
`VariableNotDefined("b")` and prints nothing. -/
theorem c1_counterexample :
    parse 40 toksScopeB = .err (.UnexpectedToken .ScopeOpen)
    ∧ (VM.assign_variable { stack := [[], []], output := [], input := [] } "b"
        (.Number (.Integer 3))).stack = [[("b", .Number (.Integer 3))], []]
    ∧ interpret 40 progScopeB [] =
        .err (.VariableNotDefined "b") { stack := [[]], output := [], input := [] } := by
  exact ⟨rfl, rfl, rfl⟩

/-- C1 (amended): assigning to a name with no existing binding creates the
binding in the CURRENT INNERMOST frame (index 0, the front of the stack,
where new frames are inserted), leaving all outer frames untouched; the
program `{ b = 3; } print(b);` is a parse error (`UnexpectedToken` on the
`{`), and executing the corresponding instruction tree fails with
`VariableNotDefined("b")`, printing nothing. -/
theorem c1_amended_innermost_create :
    (∀ (vm : VM) (name : String) (d : Data) (f : StackFrame)
      (rest : List StackFrame), vm.stack = f :: rest →
      getVarRev vm.stack name = none →
      (vm.assign_variable name d).stack = frameInsert f name d :: rest)
    ∧ parse 40 toksScopeB = .err (.UnexpectedToken .ScopeOpen)
    ∧ interpret 40 progScopeB [] =
        .err (.VariableNotDefined "b") { stack := [[]], output := [], input := [] } := by
  refine ⟨fun vm name d f rest hstack hnone => ?_, rfl, rfl⟩
  unfold VM.assign_variable
  rw [hnone]
  simp [hstack]

/-- Closed instance of the universally quantified part of
`c1_amended_innermost_create`. -/
theorem c1_amended_innermost_create_witness :
    (VM.assign_variable { stack := [[], []], output := [], input := [] } "b"
      (.Number (.Integer 3))).stack = frameInsert [] "b" (.Number (.Integer 3)) :: [[]] := by
  exact c1_amended_innermost_create.1
    { stack := [[], []], output := [], input := [] } "b" (.Number (.Integer 3))
    [] [[]] rfl rfl

/-! ## C8 -/

/-- C8 is false on the code: `Input` applies Rust `str::trim`, which also
removes LEADING whitespace.  Reading the line `"  hi\n"` stores the string
`"hi"`, not the claimed `"  hi"` (the line with exactly its trailing
line-ending/whitespace removed). -/
theorem c8_counterexample :
    runLoop 5 none [.Input "x"] { stack := [[]], output := [], input := ["  hi\n"] } =
      .ok () { stack := [[("x", .String "hi")]], output := [], input := [] }
    ∧ rustTrim "  hi\n" = "hi"
    ∧ ("hi" : String) ≠ "  hi" := by
  refine ⟨rfl, rfl, by decide⟩

/-- C8 (amended): `Input` stores the read line with its leading AND
trailing whitespace removed (Rust `str::trim`), as a `String`, written via
the write-resolution rule `VM.assign_variable` (first conjunct); and
`rustTrim` removes exactly the whitespace at the two ends: the original
character list is an all-whitespace prefix, the trimmed text, then an
all-whitespace suffix, and the trimmed text neither starts nor ends with
whitespace (second conjunct). -/
theorem c8_amended_trim_both_ends :
    (∀ (fuel : Nat) (flag : Option Bool) (x : String) (rest : List Instruction)
      (stack : List StackFrame) (out inp : List String) (line : String),
      runLoop (fuel + 1) flag (.Input x :: rest)
          { stack := stack, output := out, input := line :: inp } =
        runLoop fuel (elseUpdate flag) rest
          (VM.assign_variable { stack := stack, output := out, input := inp } x
            (.String (rustTrim line))))
    ∧ (∀ s : String, ∃ a b : List Char,
        s.data = a ++ (rustTrim s).data ++ b
        ∧ (∀ c ∈ a, rust_is_whitespace c = true)
        ∧ (∀ c ∈ b, rust_is_whitespace c = true)
        ∧ (∀ c, (rustTrim s).data.head? = some c → rust_is_whitespace c = false)
        ∧ (∀ c, (rustTrim s).data.getLast? = some c → rust_is_whitespace c = false)) := by
  constructor
  · intro fuel flag x rest stack out inp line
    rfl
  · intro s
    set p := rust_is_whitespace with hp
    set L := s.data with hL
    set t := L.dropWhile p with ht
    set u := t.reverse.dropWhile p with hu
    have hdata : (rustTrim s).data = u.reverse := rfl
    refine ⟨L.takeWhile p, (t.reverse.takeWhile p).reverse, ?_, ?_, ?_, ?_, ?_⟩
    · have h2 : t.reverse.takeWhile p ++ u = t.reverse :=
        List.takeWhile_append_dropWhile p t.reverse
      have h3 : t = u.reverse ++ (t.reverse.takeWhile p).reverse := by
        have := congrArg List.reverse h2
        simpa using this.symm
      rw [hdata]
      calc L = L.takeWhile p ++ t := (List.takeWhile_append_dropWhile p L).symm
        _ = L.takeWhile p ++ (u.reverse ++ (t.reverse.takeWhile p).reverse) :=
            congrArg (fun z => L.takeWhile p ++ z) h3
        _ = L.takeWhile p ++ u.reverse ++ (t.reverse.takeWhile p).reverse := by
            rw [List.append_assoc]
    · intro c hc
      exact List.mem_takeWhile_imp hc
    · intro c hc
      exact List.mem_takeWhile_imp (List.mem_reverse.mp hc)
    · intro c hc
      rw [hdata, List.head?_reverse] at hc
      by_cases hu0 : u = []
      · rw [hu0] at hc
        simp at hc
      · have h2 : t.reverse.takeWhile p ++ u = t.reverse :=
          List.takeWhile_append_dropWhile p t.reverse
        have hlast : t.reverse.getLast? = some c := by
          rw [← h2, List.getLast?_append]
          rw [hc]
          rfl
        rw [List.getLast?_reverse] at hlast
        have hh := List.head?_dropWhile_not p L
        rw [← ht] at hh
        rw [hlast] at hh
        exact hh
    · intro c hc
      rw [hdata, List.getLast?_reverse] at hc
      have hh := List.head?_dropWhile_not p t.reverse
      rw [← hu] at hh
      rw [hc] at hh
      exact hh

/-- Closed instance of the execution part of `c8_amended_trim_both_ends`
(no conjunct has a hypothesis, but the first is universally quantified):
reading the line `" a b \n"` stores `"a b"` for `x`. -/
theorem c8_amended_trim_both_ends_witness :
    runLoop 5 none [.Input "x"] { stack := [[]], output := [], input := [" a b \n"] } =
      runLoop 4 (elseUpdate none) []
        (VM.assign_variable { stack := [[]], output := [], input := [] } "x"
          (.String (rustTrim " a b \n"))) := by
  exact c8_amended_trim_both_ends.1 4 none "x" [] [[]] [] [] " a b \n"

/-! ## C5 -/

/-- C5: `And`/`Or` never short-circuit.  Whenever the left operand
evaluates to the boolean that already determines the result (`false` for
`And`, `true` for `Or`), the right operand is STILL evaluated, in the
state the left evaluation produced: the overall result is exactly the
outcome of evaluating the right operand — its state changes and errors
included — combined with the already-determined boolean. -/
theorem c5_no_short_circuit :
    ∀ (fuel : Nat) (l r : Value) (vm s : VM),
    (evalValue fuel l vm = .ok (.Boolean false) s →
      evalValue (fuel + 2) (.Expression .And l (some r)) vm =
        match evalValue fuel r s with
        | .ok (.Boolean _) s1 => .ok (.Boolean false) s1
        | .ok _ s1 => .err (.TypeMismatch "Expected 2 booleans ") s1
        | .err e s1 => .err e s1
        | .fault => .fault
        | .timeout => .timeout)
    ∧ (evalValue fuel l vm = .ok (.Boolean true) s →
      evalValue (fuel + 2) (.Expression .Or l (some r)) vm =
        match evalValue fuel r s with
        | .ok (.Boolean _) s1 => .ok (.Boolean true) s1
        | .ok _ s1 => .err (.TypeMismatch "Expected 2 booleans ") s1
        | .err e s1 => .err e s1
        | .fault => .fault
        | .timeout => .timeout) := by
  intro fuel l r vm s
  constructor
  · intro h
    simp only [evalValue, evalBinOperands, h, ExecResult.bind]
    cases hr : evalValue fuel r s with
    | ok dr s1 => cases dr <;> rfl
    | err e s1 => rfl
    | fault => rfl
    | timeout => rfl
  · intro h
    simp only [evalValue, evalBinOperands, h, ExecResult.bind]
    cases hr : evalValue fuel r s with
    | ok dr s1 => cases dr <;> rfl
    | err e s1 => rfl
    | fault => rfl
    | timeout => rfl

/-- Closed instance of `c5_no_short_circuit`: `false && ((x = 5) == 5)`
evaluates its right operand — the assignment side effect lands in the
state even though the left operand already fixed the result to `false`. -/
theorem c5_no_short_circuit_witness :
    evalValue 10 (.Expression .And (.Boolean false) (some assignEqFive)) vmOneFrame =
      .ok (.Boolean false)
        { stack := [[("x", .Number (.Integer 5))]], output := [], input := [] } := by
  have h := (c5_no_short_circuit 8 (.Boolean false) assignEqFive vmOneFrame
    vmOneFrame).1 rfl
  rw [h]
  rfl

/-! ## C2 -/

/-- C2 is false on the code: `execute_new_instructions` removes the frame
it pushed only AFTER the `?` on the block's execution, so the error exit
path does NOT pop the frame.  Starting from an empty stack, running
`print(x)` (with `x` undefined) returns the `VariableNotDefined` error
with the pushed frame still on the stack: length 1, not the pre-call 0. -/
theorem c2_counterexample :
    executeNewInstructions 10 [.Print (.Identifier "x")] (VM.new []) =
      .err (.VariableNotDefined "x") { stack := [[]], output := [], input := [] }
    ∧ ([([] : StackFrame)] : List StackFrame).length ≠ (VM.new []).stack.length := by
  exact ⟨rfl, by decide⟩

/-! ## C7 -/

/-- With `true` as condition and `[if (true) { break; }]` as body, the
while loop never terminates: `Break` only ends the `If` block's own
instruction list, so every iteration completes normally and the loop keeps
re-evaluating its condition — at every fuel the result is `timeout`
(divergence in the fuel-free program). -/
theorem runWhile_whileIfBreak_timeout :
    ∀ (fuel : Nat) (vm : VM),
      runWhile fuel (.Boolean true) whileIfBreakBody vm = .timeout := by
  intro fuel
  induction fuel using Nat.strong_induction_on with
  | _ fuel IH =>
    match fuel with
    | 0 => intro vm; rfl
    | 1 => intro vm; rfl
    | 2 => intro vm; rfl
    | 3 => intro vm; rfl
    | 4 => intro vm; rfl
    | (k + 5) =>
      intro vm
      have hstep : runWhile (k + 5) (.Boolean true) whileIfBreakBody vm =
          runWhile (k + 4) (.Boolean true) whileIfBreakBody vm := rfl
      rw [hstep]
      exact IH (k + 4) (by omega) vm

/-- C7: `Break` ends only the instruction list currently being run — the
rest of that list is dropped and the caller receives a NORMAL (`ok`)
completion with the state untouched (first conjunct, for any list tail and
any state); consequently a `Break` inside an `If` block nested in a
`While` body does not reach the loop: `while (true) { if (true) { break; } }`
re-evaluates the condition forever (second conjunct: timeout at every
fuel). -/
theorem c7_break_current_list_only :
    (∀ (fuel : Nat) (flag : Option Bool) (rest : List Instruction) (vm : VM),
      runLoop (fuel + 1) flag (.Break :: rest) vm = .ok () vm)
    ∧ (∀ (fuel : Nat) (vm : VM),
      executeNewInstructions fuel progWhileIfBreak vm = .timeout) := by
  constructor
  · intro fuel flag rest vm
    rfl
  · intro fuel vm
    match fuel with
    | 0 => rfl
    | 1 => rfl
    | (k + 2) =>
      have hw := runWhile_whileIfBreak_timeout k
        { vm with stack := StackFrame.emptyFrame :: vm.stack }
      simp only [whileIfBreakBody] at hw
      simp only [executeNewInstructions, runLoop, progWhileIfBreak]
      rw [hw]
      rfl

/-! ## Stack-length bookkeeping (for C2) -/

theorem stackLenPred_bind {α β : Type} {n : Nat} {r : ExecResult α}
    {f : α → VM → ExecResult β} (hr : stackLenPred n r)
    (hf : ∀ a s, s.stack.length = n → stackLenPred n (f a s)) :
    stackLenPred n (r.bind f) := by
  cases r with
  | ok a s => exact hf a s hr
  | err e s => exact hr
  | fault => trivial
  | timeout => trivial

theorem assign_variable_stack_length (vm : VM) (name : String) (d : Data) :
    (vm.assign_variable name d).stack.length = vm.stack.length := by
  unfold VM.assign_variable
  cases getVarRev vm.stack name with
  | none => simp
  | some di => simp

theorem eval_family_stackLen : ∀ fuel : Nat,
    (∀ (v : Value) (vm : VM), stackLenPred vm.stack.length (evalValue fuel v vm))
    ∧ (∀ (l : Value) (r : Option Value) (vm : VM),
        stackLenPred vm.stack.length (evalBinOperands fuel l r vm))
    ∧ (∀ (l r : Value) (vm : VM),
        stackLenPred vm.stack.length (assignVariableValue fuel l r vm))
    ∧ (∀ (l r : Value) (op : Operator) (vm : VM),
        stackLenPred vm.stack.length (assignVariableWithOperator fuel l r op vm)) := by
  intro fuel
  induction fuel with
  | zero =>
    exact ⟨fun _ _ => trivial, fun _ _ _ => trivial, fun _ _ _ => trivial,
      fun _ _ _ _ => trivial⟩
  | succ fuel ih =>
    obtain ⟨ihv, ihb, iha, ihw⟩ := ih
    refine ⟨?_, ?_, ?_, ?_⟩
    · intro v vm
      cases v with
      | Number n => exact rfl
      | String s => exact rfl
      | Boolean b => exact rfl
      | Identifier name =>
        simp only [evalValue]
        cases h : vm.get_variable name with
        | none => exact rfl
        | some dp => cases dp with | mk d i => exact rfl
      | Expression op left right =>
        cases op <;> simp only [evalValue] <;>
        first
        | exact ihv left vm
        | (apply stackLenPred_bind (ihb left right vm)
           rintro ⟨dl, dr⟩ s hs
           cases dl <;> cases dr <;> simpa [stackLenPred] using hs)
        | (apply stackLenPred_bind (ihv left vm)
           intro dl s hs
           cases dl <;> simpa [stackLenPred] using hs)
        | (cases right with
           | none => trivial
           | some r => exact iha left r vm)
        | (cases right with
           | none => trivial
           | some r => exact ihw left r _ vm)
    · intro l r vm
      simp only [evalBinOperands]
      apply stackLenPred_bind (ihv l vm)
      intro dl s hs
      cases r with
      | none => trivial
      | some rr =>
        apply stackLenPred_bind (hs ▸ ihv rr s)
        intro dr t ht
        exact ht
    · intro l r vm
      cases l <;> simp only [assignVariableValue]
      case Identifier name =>
        apply stackLenPred_bind (ihv r vm)
        intro d s hs
        show (s.assign_variable name d).stack.length = vm.stack.length
        rw [assign_variable_stack_length]
        exact hs
      all_goals exact rfl
    · intro l r op vm
      cases l <;> simp only [assignVariableWithOperator]
      case Identifier name =>
        apply stackLenPred_bind (ihv _ vm)
        intro d s hs
        show (s.assign_variable name d).stack.length = vm.stack.length
        rw [assign_variable_stack_length]
        exact hs
      all_goals exact rfl

theorem runLenPred_bind_eval {n : Nat} {r : ExecResult Data}
    {k : Data → VM → ExecResult Unit} (hr : stackLenPred n r)
    (hk : ∀ d s, s.stack.length = n → runLenPred n (k d s)) :
    runLenPred n (r.bind k) := by
  cases r with
  | ok d s => exact hk d s hr
  | err e s => exact hr.ge
  | fault => trivial
  | timeout => trivial

theorem runLenPred_bind_exec {n : Nat} {r : ExecResult Unit}
    {k : Unit → VM → ExecResult Unit} (hr : execLenPred n r)
    (hk : ∀ u s, s.stack.length = n → runLenPred n (k u s)) :
    runLenPred n (r.bind k) := by
  cases r with
  | ok u s => exact hk u s hr
  | err e s => exact Nat.le_of_succ_le hr
  | fault => trivial
  | timeout => trivial

theorem runLenPred_bind_run {n : Nat} {r : ExecResult Unit}
    {k : Unit → VM → ExecResult Unit} (hr : runLenPred n r)
    (hk : ∀ u s, s.stack.length = n → runLenPred n (k u s)) :
    runLenPred n (r.bind k) := by
  cases r with
  | ok u s => exact hk u s hr
  | err e s => exact hr
  | fault => trivial
  | timeout => trivial

theorem run_family_stackLen : ∀ fuel : Nat,
    (∀ (flag : Option Bool) (is : List Instruction) (vm : VM),
      runLenPred vm.stack.length (runLoop fuel flag is vm))
    ∧ (∀ (is : List Instruction) (vm : VM),
      execLenPred vm.stack.length (executeNewInstructions fuel is vm))
    ∧ (∀ (c : Value) (b : List Instruction) (vm : VM),
      runLenPred vm.stack.length (runWhile fuel c b vm)) := by
  intro fuel
  induction fuel with
  | zero => exact ⟨fun _ _ _ => trivial, fun _ _ => trivial, fun _ _ _ => trivial⟩
  | succ fuel ih =>
    obtain ⟨ihr, ihe, ihw⟩ := ih
    have heval := (eval_family_stackLen fuel).1
    refine ⟨?_, ?_, ?_⟩
    · intro flag is vm
      cases is with
      | nil => exact rfl
      | cons instr rest =>
        cases instr with
        | Break => exact rfl
        | Value v =>
          simp only [runLoop]
          cases hv : evalValue fuel v vm with
          | ok d s =>
            have hs : s.stack.length = vm.stack.length := by
              have := heval v vm; rw [hv] at this; exact this
            have h3 := ihr (elseUpdate flag) rest s
            rw [hs] at h3
            exact h3
          | err e s => trivial
          | fault => trivial
          | timeout => trivial
        | If c blk =>
          simp only [runLoop]
          apply runLenPred_bind_eval (heval c vm)
          intro d s hs
          cases d with
          | Boolean b =>
            cases b with
            | true =>
              apply runLenPred_bind_exec (hs ▸ ihe blk s)
              intro u s2 h2
              have h3 := ihr (elseUpdate flag) rest s2
              rw [h2] at h3
              exact h3
            | false =>
              have h3 := ihr (some true) rest s
              rw [hs] at h3
              exact h3
          | Number n => exact hs.ge
          | String str => exact hs.ge
        | Else blk =>
          simp only [runLoop]
          cases helse : elseUpdate flag with
          | some b2 =>
            apply runLenPred_bind_exec (ihe blk vm)
            intro u s h2
            have h3 := ihr (some b2) rest s
            rw [h2] at h3
            exact h3
          | none => exact ihr none rest vm
        | While c blk =>
          simp only [runLoop]
          apply runLenPred_bind_run (ihw c blk vm)
          intro u s hs
          have h3 := ihr (elseUpdate flag) rest s
          rw [hs] at h3
          exact h3
        | Scope blk =>
          simp only [runLoop]
          apply runLenPred_bind_exec (ihe blk vm)
          intro u s hs
          have h3 := ihr (elseUpdate flag) rest s
          rw [hs] at h3
          exact h3
        | Print msg =>
          simp only [runLoop]
          apply runLenPred_bind_eval (heval msg vm)
          intro d s hs
          have h3 := ihr (elseUpdate flag) rest
            { s with output := s.output ++ [d.to_string] }
          exact hs ▸ h3
        | Input x =>
          simp only [runLoop]
          have h3 := ihr (elseUpdate flag) rest
            (VM.assign_variable { vm with input := vm.input.drop 1 } x
              (.String (rustTrim (match vm.input with | [] => "" | l :: _ => l))))
          rw [assign_variable_stack_length] at h3
          exact h3
    · intro is vm
      simp only [executeNewInstructions]
      have h := ihr none is { vm with stack := StackFrame.emptyFrame :: vm.stack }
      cases hr : runLoop fuel none is { vm with stack := StackFrame.emptyFrame :: vm.stack } with
      | ok u s =>
        rw [hr] at h
        have h2 : s.stack.length = vm.stack.length + 1 := h
        show (s.stack.drop 1).length = vm.stack.length
        simp [h2]
      | err e s =>
        rw [hr] at h
        exact h
      | fault => trivial
      | timeout => trivial
    · intro c b vm
      simp only [runWhile]
      apply runLenPred_bind_eval (heval c vm)
      intro d s hs
      cases d with
      | Boolean bb =>
        cases bb with
        | true =>
          apply runLenPred_bind_exec (hs ▸ ihe b s)
          intro u s2 h2
          have h3 := ihw c b s2
          rw [h2] at h3
          exact h3
        | false => exact hs
      | Number n => exact hs.ge
      | String str => exact hs.ge

/-! ## C2 -/

/-- C2 (amended): every block entry pushes exactly one fresh frame, and it
is popped on the NORMAL exit paths — fall-through and `Break` both reach
`Ok`, and then the frame-stack length is restored (first conjunct) — but
on a propagated runtime error the frame is NOT popped: the post-error
stack is strictly longer than the pre-call stack (second conjunct). -/
theorem c2_amended_frame_pop :
    ∀ (fuel : Nat) (is : List Instruction) (vm : VM),
    (∀ vm1, executeNewInstructions fuel is vm = .ok () vm1 →
      vm1.stack.length = vm.stack.length)
    ∧ (∀ e vm1, executeNewInstructions fuel is vm = .err e vm1 →
      vm.stack.length < vm1.stack.length) := by
  intro fuel is vm
  have h := (run_family_stackLen fuel).2.1 is vm
  constructor
  · intro vm1 heq
    rw [heq] at h
    exact h
  · intro e vm1 heq
    rw [heq] at h
    exact h

/-- Closed instance of `c2_amended_frame_pop`: an empty block restores the
empty stack; the erroring `print(x)` leaves the stack strictly longer than
before the call. -/
theorem c2_amended_frame_pop_witness :
    (VM.new []).stack.length = (VM.new []).stack.length
    ∧ (VM.new []).stack.length <
      ({ stack := [[]], output := [], input := [] } : VM).stack.length := by
  refine ⟨(c2_amended_frame_pop 5 [] (VM.new [])).1 (VM.new []) rfl,
    (c2_amended_frame_pop 10 [.Print (.Identifier "x")] (VM.new [])).2
      (.VariableNotDefined "x") { stack := [[]], output := [], input := [] } rfl⟩

/-! ## C6 -/

theorem elseUpdate_ne_some_true : ∀ flag : Option Bool, elseUpdate flag ≠ some true := by
  intro flag
  cases flag with
  | none => simp [elseUpdate]
  | some b => cases b <;> simp [elseUpdate]

/-- The source run-loop family and the spec-modelled adjacency family agree
whenever the `should_execute_else` flag and the `prevFalseIf` boolean are
related by: the flag is `some true` exactly when the previous instruction
was an `If` that evaluated false. -/
theorem adj_equiv : ∀ fuel : Nat,
    (∀ (flag : Option Bool) (b : Bool) (is : List Instruction) (vm : VM),
      (flag = some true ↔ b = true) →
      runLoop fuel flag is vm = runLoopAdj fuel b is vm)
    ∧ (∀ (is : List Instruction) (vm : VM),
      executeNewInstructions fuel is vm = executeNewInstructionsAdj fuel is vm)
    ∧ (∀ (c : Value) (bdy : List Instruction) (vm : VM),
      runWhile fuel c bdy vm = runWhileAdj fuel c bdy vm) := by
  intro fuel
  induction fuel with
  | zero => exact ⟨fun _ _ _ _ _ => rfl, fun _ _ => rfl, fun _ _ _ => rfl⟩
  | succ fuel ih =>
    obtain ⟨ihr, ihe, ihw⟩ := ih
    have hupd : ∀ flag : Option Bool, (elseUpdate flag = some true ↔ False) := by
      intro flag
      simp [elseUpdate_ne_some_true flag]
    refine ⟨?_, ?_, ?_⟩
    · intro flag b is vm hrel
      cases is with
      | nil => rfl
      | cons instr rest =>
        cases instr with
        | Break => rfl
        | Value v =>
          simp only [runLoop, runLoopAdj]
          cases evalValue fuel v vm with
          | ok d s =>
            exact ihr (elseUpdate flag) false rest s (by simpa using hupd flag)
          | err e s => rfl
          | fault => rfl
          | timeout => rfl
        | If c blk =>
          simp only [runLoop, runLoopAdj]
          cases evalValue fuel c vm with
          | ok d s =>
            cases d with
            | Boolean bb =>
              cases bb with
              | true =>
                show (executeNewInstructions fuel blk s).bind _ =
                  (executeNewInstructionsAdj fuel blk s).bind _
                rw [← ihe blk s]
                cases executeNewInstructions fuel blk s with
                | ok u s2 =>
                  exact ihr (elseUpdate flag) false rest s2 (by simpa using hupd flag)
                | err e s2 => rfl
                | fault => rfl
                | timeout => rfl
              | false => exact ihr (some true) true rest s (by simp)
            | Number n => rfl
            | String str => rfl
          | err e s => rfl
          | fault => rfl
          | timeout => rfl
        | Else blk =>
          simp only [runLoop, runLoopAdj]
          cases b with
          | true =>
            have hflag : flag = some true := hrel.mpr rfl
            rw [hflag]
            simp only [elseUpdate, if_true]
            rw [← ihe blk vm]
            cases executeNewInstructions fuel blk vm with
            | ok u s => exact ihr (some false) false rest s (by simp)
            | err e s => rfl
            | fault => rfl
            | timeout => rfl
          | false =>
            have hflag : flag ≠ some true := by
              intro h
              have := hrel.mp h
              cases this
            cases flag with
            | none =>
              simp only [elseUpdate, if_false]
              exact ihr none false rest vm (by simp)
            | some bf =>
              cases bf with
              | true => exact absurd rfl hflag
              | false =>
                simp only [elseUpdate, if_false]
                exact ihr none false rest vm (by simp)
        | While c blk =>
          simp only [runLoop, runLoopAdj]
          rw [← ihw c blk vm]
          cases runWhile fuel c blk vm with
          | ok u s =>
            exact ihr (elseUpdate flag) false rest s (by simpa using hupd flag)
          | err e s => rfl
          | fault => rfl
          | timeout => rfl
        | Scope blk =>
          simp only [runLoop, runLoopAdj]
          rw [← ihe blk vm]
          cases executeNewInstructions fuel blk vm with
          | ok u s =>
            exact ihr (elseUpdate flag) false rest s (by simpa using hupd flag)
          | err e s => rfl
          | fault => rfl
          | timeout => rfl
        | Print msg =>
          simp only [runLoop, runLoopAdj]
          cases evalValue fuel msg vm with
          | ok d s =>
            exact ihr (elseUpdate flag) false rest _ (by simpa using hupd flag)
          | err e s => rfl
          | fault => rfl
          | timeout => rfl
        | Input x =>
          simp only [runLoop, runLoopAdj]
          exact ihr (elseUpdate flag) false rest _ (by simpa using hupd flag)
    · intro is vm
      simp only [executeNewInstructions, executeNewInstructionsAdj]
      rw [ihr none false is { vm with stack := StackFrame.emptyFrame :: vm.stack } (by simp)]
    · intro c bdy vm
      simp only [runWhile, runWhileAdj]
      cases evalValue fuel c vm with
      | ok d s =>
        cases d with
        | Boolean bb =>
          cases bb with
          | true =>
            show (executeNewInstructions fuel bdy s).bind _ =
              (executeNewInstructionsAdj fuel bdy s).bind _
            rw [← ihe bdy s]
            cases executeNewInstructions fuel bdy s with
            | ok u s2 => exact ihw c bdy s2
            | err e s2 => rfl
            | fault => rfl
            | timeout => rfl
          | false => rfl
        | Number n => rfl
        | String str => rfl
      | err e s => rfl
      | fault => rfl
      | timeout => rfl

/-- C6: the source's `should_execute_else` flag dance implements exactly
"an `Else` executes its block (in a fresh frame) iff the immediately
preceding instruction in the sequence was an `If` whose condition evaluated
to false; in every other position it is a no-op": block execution over the
source run loop coincides with block execution over the reference
`runLoopAdj`, which threads that adjacency condition literally. -/
theorem c6_else_adjacency :
    ∀ (fuel : Nat) (is : List Instruction) (vm : VM),
      executeNewInstructions fuel is vm = executeNewInstructionsAdj fuel is vm := by
  intro fuel
  exact (adj_equiv fuel).2.1

/-! ## C9: unique-binding invariant -/

theorem frameGet_frameInsert_self (f : StackFrame) (name : String) (d : Data) :
    frameGet (frameInsert f name d) name = some d := by
  induction f with
  | nil => simp [frameInsert, frameGet]
  | cons p rest ih =>
    obtain ⟨k, v⟩ := p
    by_cases h : k = name
    · simp [frameInsert, h, frameGet]
    · simp [frameInsert, h, frameGet, ih]

theorem frameGet_frameInsert_ne (f : StackFrame) (name : String) (d : Data)
    (m : String) (h : m ≠ name) :
    frameGet (frameInsert f name d) m = frameGet f m := by
  induction f with
  | nil =>
    simp only [frameInsert, frameGet]
    rw [if_neg (fun hh => h hh.symm)]
  | cons p rest ih =>
    obtain ⟨k, v⟩ := p
    by_cases hk : k = name
    · subst hk
      simp only [frameInsert, if_pos rfl, frameGet]
      rw [if_neg (fun hh => h hh.symm), if_neg (fun hh => h hh.symm)]
    · simp only [frameInsert, if_neg hk, frameGet]
      by_cases hm : k = m
      · rw [if_pos hm, if_pos hm]
      · rw [if_neg hm, if_neg hm, ih]

theorem getVarRev_isSome_iff (stack : List StackFrame) (name : String) :
    (getVarRev stack name).isSome ↔ 0 < countBound stack name := by
  induction stack with
  | nil => simp [getVarRev, countBound]
  | cons f rest ih =>
    simp only [getVarRev, countBound, List.countP_cons]
    cases hr : getVarRev rest name with
    | some di =>
      rw [hr] at ih
      simp only [Option.isSome_some, true_iff] at ih
      obtain ⟨d, i⟩ := di
      simp only [Option.isSome_some, true_iff]
      unfold countBound at ih
      exact Nat.lt_of_lt_of_le ih (Nat.le_add_right _ _)
    | none =>
      rw [hr] at ih
      simp only [Option.isSome_none, Bool.false_eq_true, false_iff] at ih
      have hzero : rest.countP (bindsIn name) = 0 := by
        unfold countBound at ih
        omega
      cases hf : frameGet f name with
      | some d => simp [hzero, bindsIn, hf]
      | none => simp [hzero, bindsIn, hf]

theorem getVarRev_none_iff (stack : List StackFrame) (name : String) :
    getVarRev stack name = none ↔ countBound stack name = 0 := by
  rw [← Option.not_isSome_iff_eq_none, getVarRev_isSome_iff]
  omega

theorem getVarRev_some_spec (stack : List StackFrame) (name : String)
    (d : Data) (i : Nat) (h : getVarRev stack name = some (d, i)) :
    ∃ f, stack.get? i = some f ∧ frameGet f name = some d := by
  induction stack generalizing d i with
  | nil => simp [getVarRev] at h
  | cons f rest ih =>
    simp only [getVarRev] at h
    cases hr : getVarRev rest name with
    | some di =>
      obtain ⟨d', i'⟩ := di
      rw [hr] at h
      simp only [Option.some.injEq, Prod.mk.injEq] at h
      obtain ⟨hd, hi⟩ := h
      subst hd
      obtain ⟨f', hget, hbind⟩ := ih _ _ hr
      refine ⟨f', ?_, hbind⟩
      rw [← hi]
      simpa using hget
    | none =>
      rw [hr] at h
      cases hf : frameGet f name with
      | some d' =>
        rw [hf] at h
        simp only [Option.some.injEq, Prod.mk.injEq] at h
        obtain ⟨hd, hi⟩ := h
        subst hd
        exact ⟨f, by rw [← hi]; rfl, hf⟩
      | none => rw [hf] at h; cases h

/-- Replacing a frame by one that binds the observed name the same way
does not change its bound-count. -/
theorem countP_set_eq (p : StackFrame → Bool) (stack : List StackFrame)
    (i : Nat) (g : StackFrame)
    (h : ∀ f, stack.get? i = some f → p g = p f) :
    (stack.set i g).countP p = stack.countP p := by
  induction stack generalizing i with
  | nil => rfl
  | cons f rest ih =>
    cases i with
    | zero =>
      have hpg : p g = p f := h f rfl
      simp [List.countP_cons, hpg]
    | succ i =>
      have hrec := ih i (fun f' hf' => h f' (by simpa using hf'))
      simp [List.countP_cons, hrec]

theorem assign_preserves_unique (vm : VM) (name : String) (d : Data)
    (h : UniqueBinding vm) : UniqueBinding (vm.assign_variable name d) := by
  unfold VM.assign_variable
  cases hg : getVarRev vm.stack name with
  | some di =>
    obtain ⟨dv, i⟩ := di
    obtain ⟨f, hget, hbind⟩ := getVarRev_some_spec _ _ _ _ hg
    have hgetD : vm.stack.getD i [] = f := by
      rw [List.getD_eq_getElem?_getD, ← List.get?_eq_getElem?, hget]
      rfl
    intro q
    show countBound (vm.stack.set i (frameInsert (vm.stack.getD i []) name d)) q ≤ 1
    rw [hgetD]
    by_cases hq : q = name
    · subst hq
      unfold countBound
      rw [countP_set_eq]
      · exact h q
      · intro f' hf'
        rw [hget] at hf'
        cases hf'
        simp [bindsIn, frameGet_frameInsert_self, hbind]
    · unfold countBound
      rw [countP_set_eq]
      · exact h q
      · intro f' hf'
        rw [hget] at hf'
        cases hf'
        simp [bindsIn, frameGet_frameInsert_ne _ _ _ _ hq]
  | none =>
    intro q
    show countBound (vm.stack.set 0 (frameInsert (vm.stack.getD 0 []) name d)) q ≤ 1
    have hzero : countBound vm.stack name = 0 := (getVarRev_none_iff _ _).mp hg
    cases hstack : vm.stack with
    | nil => simp [countBound]
    | cons f0 rest =>
      have hgetD : (f0 :: rest).getD 0 [] = f0 := rfl
      rw [hgetD]
      rw [hstack] at hzero
      by_cases hq : q = name
      · subst hq
        unfold countBound at hzero ⊢
        simp only [List.countP_cons] at hzero
        simp only [List.set_cons_zero, List.countP_cons, bindsIn,
          frameGet_frameInsert_self, Option.isSome_some, if_pos]
        omega
      · have hcnt := h q
        rw [hstack] at hcnt
        unfold countBound at hcnt ⊢
        simp only [List.set_cons_zero, List.countP_cons] at hcnt ⊢
        have : bindsIn q (frameInsert f0 name d) = bindsIn q f0 := by
          simp [bindsIn, frameGet_frameInsert_ne _ _ _ _ hq]
        rw [this]
        exact hcnt

theorem unique_push (vm : VM) (h : UniqueBinding vm) :
    UniqueBinding { vm with stack := StackFrame.emptyFrame :: vm.stack } := by
  intro q
  show countBound (StackFrame.emptyFrame :: vm.stack) q ≤ 1
  unfold countBound
  simp only [List.countP_cons]
  have : bindsIn q StackFrame.emptyFrame = false := rfl
  rw [this]
  simpa using h q

theorem unique_pop (s : VM) (h : UniqueBinding s) :
    UniqueBinding { s with stack := s.stack.drop 1 } := by
  intro q
  show countBound (s.stack.drop 1) q ≤ 1
  cases hs : s.stack with
  | nil => simp [countBound]
  | cons f rest =>
    have := h q
    rw [hs] at this
    unfold countBound at this ⊢
    simp only [List.countP_cons] at this
    simp only [List.drop_succ_cons, List.drop_zero]
    omega

theorem holdsUnique_bind {α β : Type} {r : ExecResult α}
    {k : α → VM → ExecResult β} (hr : holdsUnique r)
    (hk : ∀ a s, UniqueBinding s → holdsUnique (k a s)) :
    holdsUnique (r.bind k) := by
  cases r with
  | ok a s => exact hk a s hr
  | err e s => exact hr
  | fault => trivial
  | timeout => trivial

theorem eval_family_unique : ∀ fuel : Nat,
    (∀ (v : Value) (vm : VM), UniqueBinding vm →
      holdsUnique (evalValue fuel v vm))
    ∧ (∀ (l : Value) (r : Option Value) (vm : VM), UniqueBinding vm →
      holdsUnique (evalBinOperands fuel l r vm))
    ∧ (∀ (l r : Value) (vm : VM), UniqueBinding vm →
      holdsUnique (assignVariableValue fuel l r vm))
    ∧ (∀ (l r : Value) (op : Operator) (vm : VM), UniqueBinding vm →
      holdsUnique (assignVariableWithOperator fuel l r op vm)) := by
  intro fuel
  induction fuel with
  | zero =>
    exact ⟨fun _ _ _ => trivial, fun _ _ _ _ => trivial, fun _ _ _ _ => trivial,
      fun _ _ _ _ _ => trivial⟩
  | succ fuel ih =>
    obtain ⟨ihv, ihb, iha, ihw⟩ := ih
    refine ⟨?_, ?_, ?_, ?_⟩
    · intro v vm hvm
      cases v with
      | Number n => exact hvm
      | String s => exact hvm
      | Boolean b => exact hvm
      | Identifier name =>
        simp only [evalValue]
        cases h : vm.get_variable name with
        | none => exact hvm
        | some dp => cases dp with | mk d i => exact hvm
      | Expression op left right =>
        cases op <;> simp only [evalValue] <;>
        first
        | exact ihv left vm hvm
        | (apply holdsUnique_bind (ihb left right vm hvm)
           rintro ⟨dl, dr⟩ s hs
           cases dl <;> cases dr <;> exact hs)
        | (apply holdsUnique_bind (ihv left vm hvm)
           intro dl s hs
           cases dl <;> exact hs)
        | (cases right with
           | none => trivial
           | some r => exact iha left r vm hvm)
        | (cases right with
           | none => trivial
           | some r => exact ihw left r _ vm hvm)
    · intro l r vm hvm
      simp only [evalBinOperands]
      apply holdsUnique_bind (ihv l vm hvm)
      intro dl s hs
      cases r with
      | none => trivial
      | some rr =>
        apply holdsUnique_bind (ihv rr s hs)
        intro dr t ht
        exact ht
    · intro l r vm hvm
      cases l <;> simp only [assignVariableValue]
      case Identifier name =>
        apply holdsUnique_bind (ihv r vm hvm)
        intro d s hs
        exact assign_preserves_unique s name d hs
      all_goals exact hvm
    · intro l r op vm hvm
      cases l <;> simp only [assignVariableWithOperator]
      case Identifier name =>
        apply holdsUnique_bind (ihv _ vm hvm)
        intro d s hs
        exact assign_preserves_unique s name d hs
      all_goals exact hvm

theorem run_family_unique : ∀ fuel : Nat,
    (∀ (flag : Option Bool) (is : List Instruction) (vm : VM), UniqueBinding vm →
      holdsUnique (runLoop fuel flag is vm))
    ∧ (∀ (is : List Instruction) (vm : VM), UniqueBinding vm →
      holdsUnique (executeNewInstructions fuel is vm))
    ∧ (∀ (c : Value) (b : List Instruction) (vm : VM), UniqueBinding vm →
      holdsUnique (runWhile fuel c b vm)) := by
  intro fuel
  induction fuel with
  | zero =>
    exact ⟨fun _ _ _ _ => trivial, fun _ _ _ => trivial, fun _ _ _ _ => trivial⟩
  | succ fuel ih =>
    obtain ⟨ihr, ihe, ihw⟩ := ih
    have heval := (eval_family_unique fuel).1
    refine ⟨?_, ?_, ?_⟩
    · intro flag is vm hvm
      cases is with
      | nil => exact hvm
      | cons instr rest =>
        cases instr with
        | Break => exact hvm
        | Value v =>
          simp only [runLoop]
          have hv := heval v vm hvm
          cases hveq : evalValue fuel v vm with
          | ok d s =>
            rw [hveq] at hv
            exact ihr (elseUpdate flag) rest s hv
          | err e s => trivial
          | fault => trivial
          | timeout => trivial
        | If c blk =>
          simp only [runLoop]
          apply holdsUnique_bind (heval c vm hvm)
          intro d s hs
          cases d with
          | Boolean b =>
            cases b with
            | true =>
              apply holdsUnique_bind (ihe blk s hs)
              intro u s2 h2
              exact ihr (elseUpdate flag) rest s2 h2
            | false => exact ihr (some true) rest s hs
          | Number n => exact hs
          | String str => exact hs
        | Else blk =>
          simp only [runLoop]
          cases helse : elseUpdate flag with
          | some b2 =>
            apply holdsUnique_bind (ihe blk vm hvm)
            intro u s hs
            exact ihr (some b2) rest s hs
          | none => exact ihr none rest vm hvm
        | While c blk =>
          simp only [runLoop]
          apply holdsUnique_bind (ihw c blk vm hvm)
          intro u s hs
          exact ihr (elseUpdate flag) rest s hs
        | Scope blk =>
          simp only [runLoop]
          apply holdsUnique_bind (ihe blk vm hvm)
          intro u s hs
          exact ihr (elseUpdate flag) rest s hs
        | Print msg =>
          simp only [runLoop]
          apply holdsUnique_bind (heval msg vm hvm)
          intro d s hs
          exact ihr (elseUpdate flag) rest { s with output := s.output ++ [d.to_string] } hs
        | Input x =>
          simp only [runLoop]
          exact ihr (elseUpdate flag) rest _
            (assign_preserves_unique { vm with input := vm.input.drop 1 } x _ hvm)
    · intro is vm hvm
      simp only [executeNewInstructions]
      have hpush := unique_push vm hvm
      apply holdsUnique_bind (ihr none is _ hpush)
      intro u s2 h2
      exact unique_pop s2 h2
    · intro c b vm hvm
      simp only [runWhile]
      apply holdsUnique_bind (heval c vm hvm)
      intro d s hs
      cases d with
      | Boolean bb =>
        cases bb with
        | true =>
          apply holdsUnique_bind (ihe b s hs)
          intro u s2 h2
          exact ihw c b s2 h2
        | false => exact hs
      | Number n => exact hs
      | String str => exact hs

/-- Under the unique-binding invariant, variable lookup does not depend on
the direction in which the frame stack is searched. -/
theorem getVar_direction (stack : List StackFrame) (name : String)
    (h : countBound stack name ≤ 1) :
    getVarRev stack name = getVarFwd stack name := by
  induction stack with
  | nil => rfl
  | cons f rest ih =>
    have hrest : countBound rest name ≤ 1 := by
      unfold countBound at h ⊢
      simp only [List.countP_cons] at h
      omega
    simp only [getVarRev, getVarFwd]
    cases hr : getVarRev rest name with
    | some di =>
      obtain ⟨d, i⟩ := di
      have hpos : 0 < countBound rest name := by
        rw [← getVarRev_isSome_iff, hr]
        rfl
      have hf : frameGet f name = none := by
        cases hfg : frameGet f name with
        | none => rfl
        | some dv =>
          exfalso
          unfold countBound at h hpos
          simp only [List.countP_cons, bindsIn, hfg, Option.isSome_some,
            if_pos] at h
          omega
      rw [hf, ← ih hrest, hr]
    | none =>
      have hfwd : getVarFwd rest name = none := by
        rw [← ih hrest]
        exact hr
      cases hfg : frameGet f name with
      | some d => rfl
      | none => rw [hfwd]

/-- C9: in every VM state reachable by executing instructions from the
initial empty stack, each variable name is bound in at most one stack
frame, and consequently variable lookup returns the same binding whether
the frame stack is searched from the highest index down (the source's
`rev` order) or from index 0 up.  Stated as: the initial state satisfies
the unique-binding invariant; and any state satisfying it has
direction-independent lookup, keeps it under `assign_variable` (the only
binding-creating operation: overwrite in place, or create only when bound
nowhere), and passes it to every state reachable through block
execution (`ok` and `err` states alike). -/
theorem c9_unique_binding :
    (∀ input : List String, UniqueBinding (VM.new input))
    ∧ (∀ vm : VM, UniqueBinding vm →
        (∀ name, getVarRev vm.stack name = getVarFwd vm.stack name)
        ∧ (∀ (name : String) (d : Data), UniqueBinding (vm.assign_variable name d))
        ∧ (∀ (fuel : Nat) (is : List Instruction),
            holdsUnique (executeNewInstructions fuel is vm))) := by
  constructor
  · intro input name
    show countBound [] name ≤ 1
    simp [countBound]
  · intro vm h
    exact ⟨fun name => getVar_direction _ _ (h name),
      fun name d => assign_preserves_unique _ _ _ h,
      fun fuel is => (run_family_unique fuel).2.1 is vm h⟩

/-- Closed instance of `c9_unique_binding` at a concrete one-frame state:
the two search directions agree. -/
theorem c9_unique_binding_witness :
    getVarRev [[("a", Data.Number (.Integer 1))]] "a" =
      getVarFwd [[("a", Data.Number (.Integer 1))]] "a" := by
  have h : UniqueBinding
      { stack := [[("a", Data.Number (.Integer 1))]], output := [], input := [] } := by
    intro name
    show countBound [[("a", Data.Number (.Integer 1))]] name ≤ 1
    unfold countBound
    simp only [List.countP_cons, List.countP_nil]
    split <;> simp
  exact (c9_unique_binding.2 _ h).1 "a"

end FishLang
